import Mathlib

/-!
Verification development for the CheXzero zero-shot notebook
(`notebooks/zero_shot.ipynb`).

The own logic of the notebook is the function `ensemble_models`, which runs a
list of model checkpoints over a dataset (via the external `make` /
`run_softmax_eval` routines), caches per-checkpoint prediction matrices on
disk, and averages them with `np.mean(predictions, axis=0)`.

We embed it shallowly: prediction matrices are `List (List ℚ)` (rows of
rationals, an exact model of the numeric arrays), the on-disk cache is an
explicit file-system state, and the calls to the external collaborators
(`make`, `run_softmax_eval`, `np.load`, `mkdir`, `np.save`) are recorded in
an event trace so that ordering and skipping claims can be stated.

The statistical evaluator (`evaluate` / `bootstrap` from `eval.py`) is not
part of the repository snapshot; it is modelled from the specification
where needed, and each such definition is marked as spec-modelled.
-/

deriving instance DecidableEq for Except

/-- A prediction (or ground-truth) matrix: rows = examples, columns =
labels.  Entries are exact rationals, modelling the numeric scores. -/
abbrev Mat : Type := List (List ℚ)

/-- Element-wise sum of two equally-shaped matrices
(`List.zipWith` on rows and entries). -/
def matAdd (a b : Mat) : Mat :=
  List.zipWith (List.zipWith (· + ·)) a b

/-- Multiply every entry of a matrix by a rational scalar. -/
def matScale (c : ℚ) (m : Mat) : Mat :=
  m.map (List.map (fun x => c * x))

/-- Element-wise sum of a list of equally-shaped matrices. -/
def matSum : List Mat → Mat
  | [] => []
  | [m] => m
  | m :: ms => matAdd m (matSum ms)

/-- `np.mean(predictions, axis=0)`: the element-wise mean of a list of
equally-shaped matrices.  On the empty list numpy emits
`RuntimeWarning: Mean of empty slice` and produces a NaN-filled
(undefined) value; we model that undefined result as `none`. -/
def npMean (ms : List Mat) : Option Mat :=
  match ms with
  | [] => none
  | _ => some (matScale (1 / (ms.length : ℚ)) (matSum ms))

/-- The file-system state visible to `ensemble_models`: the cache files
(path ↦ saved matrix) and the set of existing directories. -/
structure FS where
  files : List (String × Mat)
  dirs : List String
deriving DecidableEq, Repr

/-- One observable call made by `ensemble_models` to an external
collaborator, in program order. -/
inductive Event where
  /-- `make(model_path=path, cxr_filepath=...)`: load model and loader. -/
  | makeCall (path : String)
  /-- `np.load(cache_path)`: read a cached prediction. -/
  | loadCache (cachePath : String)
  /-- `run_softmax_eval(model, loader, labels, template)`: inference. -/
  | inferCall (path : String)
  /-- `Path(cache_dir).mkdir(exist_ok=True, parents=True)`. -/
  | mkdirCall (dir : String)
  /-- `np.save(file=cache_path, arr=y_pred)`. -/
  | saveCall (cachePath : String)
deriving DecidableEq, Repr

/-- The final component of a path: the characters after the last `/`. -/
def basenameChars (l : List Char) : List Char :=
  ((l.reverse.takeWhile (fun c => c ≠ '/'))).reverse

/-- Drop the last extension from a file name, as Python `Path.stem` does:
remove from the last `.` on, unless that `.` is the leading or the final
character of the name (the pathlib guard `0 < i < len(name) - 1`), so
`.bashrc` and `name.` keep their names while `a.tar.gz` becomes
`a.tar`. -/
def stemChars (b : List Char) : List Char :=
  if b.reverse.head? = some '.' then b
  else
    match (b.reverse.dropWhile (fun c => c ≠ '.')) with
    | [] => b
    | [_] => b
    | _ :: rest => rest.reverse

/-- `Path(path).stem`: the file name of the last path component with its
last extension removed. -/
def stem (p : String) : String :=
  String.mk (stemChars (basenameChars p.data))

/-- The cache file path derived in `ensemble_models`:
`cache_dir/{save_name}_{model_name}.npy` when a save name is given and
`cache_dir/{model_name}.npy` otherwise. -/
def cachePath (cache_dir : String) (save_name : Option String)
    (model_name : String) : String :=
  match save_name with
  | some s => cache_dir ++ "/" ++ s ++ "_" ++ model_name ++ ".npy"
  | none => cache_dir ++ "/" ++ model_name ++ ".npy"

/-- The directory named by `d` together with its ancestors, all created by
`mkdir(parents=True)`.  `d` itself heads the list. -/
def parentChain (d : String) : List String :=
  let comps := d.splitOn "/"
  d :: (List.range (comps.length - 1)).map
    (fun k => String.intercalate "/" (comps.take (k + 1)))

/-- The inference collaborator: `run_softmax_eval` applied to the model and
loader `make` built for a checkpoint path.  It is a parameter of the
embedding, taking the checkpoint path, the image file path, the label
set and the positive/negative prompt template pair. -/
abbrev InferFun : Type := String → String → List String → String × String → Mat

/-- The loop body of `ensemble_models` for one checkpoint `path`: call
`make`, derive the cache path, load the cached prediction if the cache
directory is configured and the file exists, otherwise run inference
and (when a cache directory is configured) create it with parents and
save.  Returns the new file-system state, the events in program order,
and the prediction appended to `predictions`. -/
def processPath (infer : InferFun) (cxr_filepath : String)
    (cxr_labels : List String) (cxr_pair_template : String × String)
    (cache_dir : Option String) (save_name : Option String)
    (fs : FS) (path : String) : FS × List Event × Mat :=
  let model_name := stem path
  match cache_dir with
  | some cd =>
    let cp := cachePath cd save_name model_name
    match fs.files.lookup cp with
    | some y =>
      (fs, [Event.makeCall path, Event.loadCache cp], y)
    | none =>
      let y := infer path cxr_filepath cxr_labels cxr_pair_template
      ({ files := (cp, y) :: fs.files, dirs := parentChain cd ++ fs.dirs },
       [Event.makeCall path, Event.inferCall path,
        Event.mkdirCall cd, Event.saveCall cp], y)
  | none =>
    let y := infer path cxr_filepath cxr_labels cxr_pair_template
    (fs, [Event.makeCall path, Event.inferCall path], y)

/-- The `for path in model_paths` loop of `ensemble_models`, threading the
file-system state and accumulating events and predictions in order. -/
def runPaths (infer : InferFun) (cxr_filepath : String)
    (cxr_labels : List String) (cxr_pair_template : String × String)
    (cache_dir : Option String) (save_name : Option String) :
    FS → List String → FS × List Event × List Mat
  | fs, [] => (fs, [], [])
  | fs, p :: ps =>
    let r1 := processPath infer cxr_filepath cxr_labels cxr_pair_template
      cache_dir save_name fs p
    let r2 := runPaths infer cxr_filepath cxr_labels cxr_pair_template
      cache_dir save_name r1.1 ps
    (r2.1, r1.2.1 ++ r2.2.1, r1.2.2 :: r2.2.2)

/-- The value returned by `ensemble_models`, together with the resulting
file-system state and the trace of external calls. -/
structure EnsembleResult where
  fsOut : FS
  trace : List Event
  predictions : List Mat
  y_pred_avg : Option Mat
deriving DecidableEq, Repr

/-- `ensemble_models` from `notebooks/zero_shot.ipynb`: sort the model
paths, process each checkpoint (with per-checkpoint caching), and
return all predictions together with
`y_pred_avg = np.mean(predictions, axis=0)`. -/
def ensemble_models (infer : InferFun) (model_paths : List String)
    (cxr_filepath : String) (cxr_labels : List String)
    (cxr_pair_template : String × String) (cache_dir : Option String)
    (save_name : Option String) (fs : FS) : EnsembleResult :=
  let sortedPaths := model_paths.insertionSort (· ≤ ·)
  let r := runPaths infer cxr_filepath cxr_labels cxr_pair_template
    cache_dir save_name fs sortedPaths
  ⟨r.1, r.2.1, r.2.2, npMean r.2.2⟩

/-! ### The statistical evaluator, modelled from the specification

`evaluate` and `bootstrap` live in `eval.py`, which is imported by the
notebook but absent from the repository snapshot; only their call sites
and recorded outputs are visible.  The definitions below are therefore
modelled from the specification (§4.2 of the spec). -/

/-- Modelled from the spec: the Wilcoxon-Mann-Whitney score of one
positive/negative score pair — 1 if the positive ranks higher, ½ on a
tie, 0 otherwise.  Part of the AUC definition of `eval.py`, which is
missing from `src/`. -/
def wmwScore (p n : ℚ) : ℚ :=
  if n < p then 1 else if p = n then 1 / 2 else 0

/-- Modelled from the spec: per-label AUC as used by `evaluate` in
`eval.py` (missing from `src/`) — the Wilcoxon-Mann-Whitney statistic of
the score column against the binary truth column.  When the truth
column has no positive or no negative example the AUC is undefined and
the sentinel `none` (NaN) is reported instead of an exception. -/
def auc (scores truth : List ℚ) : Option ℚ :=
  let pairs := scores.zip truth
  let posS := (pairs.filter (fun x => x.2 == 1)).map Prod.fst
  let negS := (pairs.filter (fun x => !(x.2 == 1))).map Prod.fst
  if posS = [] ∨ negS = [] then none
  else
    some ((posS.map (fun p => (negS.map (fun n => wmwScore p n)).sum)).sum /
      ((posS.length : ℚ) * (negS.length : ℚ)))

/-- Column `i` of a matrix, as the numpy indexing `m[:, i]` used by
`evaluate`: the `i`-th entry of every row, an index error if any row is
too short (numpy raises `IndexError`, it does not name the label
count). -/
def getCol : Mat → ℕ → Except String (List ℚ)
  | [], _ => Except.ok []
  | row :: rest, i =>
    match row.get? i with
    | some v =>
      match getCol rest i with
      | Except.ok vs => Except.ok (v :: vs)
      | Except.error e => Except.error e
    | none => Except.error "IndexError: index out of range"

/-- Modelled from the spec: the per-label loop of `evaluate` from
`eval.py` (missing from `src/`), starting at column index `i`.  Each
label contributes one `{label}_auc` column holding the AUC of the
corresponding prediction and truth columns. -/
def evaluateAux (pred truth : Mat) : ℕ → List String →
    Except String (List (String × Option ℚ))
  | _, [] => Except.ok []
  | i, lab :: rest =>
    match getCol pred i with
    | Except.error e => Except.error e
    | Except.ok pc =>
      match getCol truth i with
      | Except.error e => Except.error e
      | Except.ok tc =>
        match evaluateAux pred truth (i + 1) rest with
        | Except.error e => Except.error e
        | Except.ok t => Except.ok ((lab ++ "_auc", auc pc tc) :: t)

/-- Modelled from the spec: `evaluate` from `eval.py` (missing from
`src/`) — for each label index `i` compute the AUC of prediction column
`i` against truth column `i`, returning a one-row table with one
`{label}_auc` column per label.  Column access on a malformed matrix
surfaces as the generic index error of `getCol`. -/
def evaluate (pred truth : Mat) (labels : List String) :
    Except String (List (String × Option ℚ)) :=
  evaluateAux pred truth 0 labels

/-- One step of a linear congruential generator, the model of the
seedable pseudo-random source used by `bootstrap`. -/
def lcgNext (s : ℕ) : ℕ :=
  (1103515245 * s + 12345) % 2147483648

/-- Draw `count` pseudo-random row indices below `rows` (sampling with
replacement), threading the generator state; returns the draws and the
final state. -/
def drawIndices : ℕ → ℕ → ℕ → List ℕ × ℕ
  | s, _, 0 => ([], s)
  | s, rows, k + 1 =>
    let s1 := lcgNext s
    let r := drawIndices s1 rows k
    (s1 % rows :: r.1, r.2)

/-- The sub-matrix formed from the rows at the given indices, as the
fancy indexing `m[idxs]` used by `bootstrap`. -/
def sampleRows (m : Mat) (idxs : List ℕ) : Mat :=
  idxs.map (fun i => m.getD i [])

/-- Modelled from the spec: the resampling loop of `bootstrap` from
`eval.py` (missing from `src/`) — repeat `n` times: draw a bootstrap
sample of row indices (with replacement, same row count), form the
prediction/truth sub-matrices, run `evaluate`, and record the per-label
AUC row. -/
def bootstrapIters (pred truth : Mat) (labels : List String) :
    ℕ → ℕ → Except String (List (List (String × Option ℚ)))
  | _, 0 => Except.ok []
  | s, n + 1 =>
    let d := drawIndices s pred.length pred.length
    match evaluate (sampleRows pred d.1) (sampleRows truth d.1) labels with
    | Except.error e => Except.error e
    | Except.ok row =>
      match bootstrapIters pred truth labels d.2 n with
      | Except.error e => Except.error e
      | Except.ok rows => Except.ok (row :: rows)

/-- Mean of a list of sentinel-carrying values: any NaN (`none`) input
makes the mean NaN, as `np.mean` propagates NaN. -/
def meanOpt (xs : List (Option ℚ)) : Option ℚ :=
  if xs.any (fun x => x.isNone) ∨ xs = [] then none
  else some ((xs.map (fun x => x.getD 0)).sum / (xs.length : ℚ))

/-- The empirical `q`-th percentile (0 ≤ q ≤ 100) of a nonempty list,
by sorting and linear interpolation, as `np.percentile`. -/
def percentilePoint (q : ℚ) (xs : List ℚ) : ℚ :=
  let s := xs.insertionSort (· ≤ ·)
  let pos := q / 100 * ((s.length : ℚ) - 1)
  let k := (⌊pos⌋).toNat
  let f := pos - (k : ℚ)
  let a := s.getD k 0
  let b := s.getD (k + 1) a
  a + f * (b - a)

/-- Percentile over sentinel-carrying values: any NaN (`none`) input
makes the percentile NaN, as `np.percentile` propagates NaN. -/
def percentileOpt (q : ℚ) (xs : List (Option ℚ)) : Option ℚ :=
  if xs.any (fun x => x.isNone) ∨ xs = [] then none
  else some (percentilePoint q (xs.map (fun x => x.getD 0)))

/-- The values of column `j` across the per-iteration AUC rows. -/
def colVals (rows : List (List (String × Option ℚ))) (j : ℕ) :
    List (Option ℚ) :=
  rows.map (fun r => (r.getD j ("", none)).2)

/-- Modelled from the spec: the summary step of `bootstrap` from
`eval.py` (missing from `src/`) — for each label column, the mean and
the `(1−confidence)/2` and `1−(1−confidence)/2` empirical percentiles
across the resampled AUC values, as the (mean, lower, upper) rows. -/
def bootstrapSummary (labels : List String)
    (rows : List (List (String × Option ℚ))) (conf : ℚ) :
    List (String × (Option ℚ × Option ℚ × Option ℚ)) :=
  labels.enum.map (fun x =>
    let vals := colVals rows x.1
    (x.2 ++ "_auc",
      (meanOpt vals,
       percentileOpt ((1 - conf) / 2 * 100) vals,
       percentileOpt ((1 - (1 - conf) / 2) * 100) vals)))

/-- Modelled from the spec: `bootstrap` from `eval.py` (missing from
`src/`) — seeded resampling of `n` bootstrap iterations followed by the
per-label mean/lower/upper summary at confidence `conf`.  Returns the
full per-iteration table and the condensed summary table. -/
def bootstrap (seed : ℕ) (pred truth : Mat) (labels : List String)
    (n : ℕ) (conf : ℚ) :
    Except String ((List (List (String × Option ℚ))) ×
      List (String × (Option ℚ × Option ℚ × Option ℚ))) :=
  match bootstrapIters pred truth labels (lcgNext seed) n with
  | Except.error e => Except.error e
  | Except.ok rows => Except.ok (rows, bootstrapSummary labels rows conf)

/-! ### Helper lemmas -/

theorem matScale_one (m : Mat) : matScale 1 m = m := by
  simp [matScale]

theorem npMean_single (m : Mat) : npMean [m] = some m := by
  simp [npMean, matSum, matScale_one]

/-- `takeWhile` passes over a block of elements that all satisfy the
predicate and stops at the first failing element. -/
theorem takeWhile_all_append (p : Char → Bool) (l : List Char) (x : Char)
    (t : List Char) (hl : ∀ a ∈ l, p a = true) (hx : p x = false) :
    (l ++ x :: t).takeWhile p = l := by
  induction l with
  | nil => simp [List.takeWhile_cons, hx]
  | cons a l ih =>
    have ha : p a = true := hl a (List.mem_cons_self a l)
    simp only [List.cons_append, List.takeWhile_cons, ha]
    simp [ih (fun b hb => hl b (List.mem_cons_of_mem a hb))]

/-- `dropWhile` drops a block of elements that all satisfy the predicate
and halts at the first failing element. -/
theorem dropWhile_all_append (p : Char → Bool) (l : List Char) (x : Char)
    (t : List Char) (hl : ∀ a ∈ l, p a = true) (hx : p x = false) :
    (l ++ x :: t).dropWhile p = x :: t := by
  induction l with
  | nil => simp [List.dropWhile_cons, hx]
  | cons a l ih =>
    have ha : p a = true := hl a (List.mem_cons_self a l)
    simp only [List.cons_append, List.dropWhile_cons, ha]
    simp [ih (fun b hb => hl b (List.mem_cons_of_mem a hb))]

/-- Whatever the cache configuration and state, the first external call of
the per-checkpoint loop body is `make` for that checkpoint. -/
theorem processPath_head (infer : InferFun) (cxr : String)
    (labels : List String) (tmpl : String × String) (cd : Option String)
    (sn : Option String) (fs : FS) (p : String) :
    (processPath infer cxr labels tmpl cd sn fs p).2.1.head? =
      some (Event.makeCall p) := by
  unfold processPath
  rcases cd with _ | d
  · rfl
  · dsimp only
    rcases fs.files.lookup (cachePath d sn (stem p)) with _ | y <;> rfl

/-- A single checkpoint whose cache file is present: `make` is called, the
cached matrix is loaded verbatim, nothing is inferred or written. -/
theorem processPath_hit (infer : InferFun) (cxr : String)
    (labels : List String) (tmpl : String × String) (d : String)
    (sn : Option String) (fs : FS) (p : String) (y : Mat)
    (hhit : fs.files.lookup (cachePath d sn (stem p)) = some y) :
    processPath infer cxr labels tmpl (some d) sn fs p =
      (fs, [Event.makeCall p, Event.loadCache (cachePath d sn (stem p))], y) := by
  unfold processPath
  dsimp only
  rw [hhit]

/-- A single checkpoint whose cache file is absent: `make` is called, the
prediction is inferred, the cache directory is created with parents and
the prediction is saved. -/
theorem processPath_miss (infer : InferFun) (cxr : String)
    (labels : List String) (tmpl : String × String) (d : String)
    (sn : Option String) (fs : FS) (p : String)
    (hmiss : fs.files.lookup (cachePath d sn (stem p)) = none) :
    processPath infer cxr labels tmpl (some d) sn fs p =
      (⟨(cachePath d sn (stem p), infer p cxr labels tmpl) :: fs.files,
         parentChain d ++ fs.dirs⟩,
       [Event.makeCall p, Event.inferCall p, Event.mkdirCall d,
        Event.saveCall (cachePath d sn (stem p))],
       infer p cxr labels tmpl) := by
  unfold processPath
  dsimp only
  rw [hmiss]

/-- Sorting a one-element path list leaves it unchanged. -/
theorem insertionSort_single (p : String) :
    ([p].insertionSort (· ≤ ·)) = [p] := rfl

/-- `ensemble_models` on a single uncached checkpoint. -/
theorem ensemble_single_miss (infer : InferFun) (cxr : String)
    (labels : List String) (tmpl : String × String) (d : String)
    (sn : Option String) (fs : FS) (p : String)
    (hmiss : fs.files.lookup (cachePath d sn (stem p)) = none) :
    ensemble_models infer [p] cxr labels tmpl (some d) sn fs =
      ⟨⟨(cachePath d sn (stem p), infer p cxr labels tmpl) :: fs.files,
         parentChain d ++ fs.dirs⟩,
       [Event.makeCall p, Event.inferCall p, Event.mkdirCall d,
        Event.saveCall (cachePath d sn (stem p))],
       [infer p cxr labels tmpl],
       some (infer p cxr labels tmpl)⟩ := by
  unfold ensemble_models
  rw [insertionSort_single]
  show (⟨_, _, _, _⟩ : EnsembleResult) = _
  unfold runPaths
  rw [processPath_miss infer cxr labels tmpl d sn fs p hmiss]
  unfold runPaths
  simp [npMean_single]

/-- `ensemble_models` on a single cached checkpoint. -/
theorem ensemble_single_hit (infer : InferFun) (cxr : String)
    (labels : List String) (tmpl : String × String) (d : String)
    (sn : Option String) (fs : FS) (p : String) (y : Mat)
    (hhit : fs.files.lookup (cachePath d sn (stem p)) = some y) :
    ensemble_models infer [p] cxr labels tmpl (some d) sn fs =
      ⟨fs, [Event.makeCall p, Event.loadCache (cachePath d sn (stem p))],
       [y], some y⟩ := by
  unfold ensemble_models
  rw [insertionSort_single]
  show (⟨_, _, _, _⟩ : EnsembleResult) = _
  unfold runPaths
  rw [processPath_hit infer cxr labels tmpl d sn fs p y hhit]
  unfold runPaths
  simp [npMean_single]

/-- Sorting with `≤` sends permutation-equal path lists to the same
sorted list. -/
theorem insertionSort_eq_of_perm (l1 l2 : List String) (h : l1.Perm l2) :
    l1.insertionSort (· ≤ ·) = l2.insertionSort (· ≤ ·) :=
  List.eq_of_perm_of_sorted
    ((List.perm_insertionSort _ l1).trans
      (h.trans (List.perm_insertionSort _ l2).symm))
    (List.sorted_insertionSort _ l1) (List.sorted_insertionSort _ l2)

/-! ### Claim theorems -/

/-- C1: calling `ensemble_models` with an empty list of checkpoint paths is
not rejected by any precondition check: the loop body never runs and the
function returns normally with an empty prediction list and the undefined
(NaN-filled) value `np.mean([], axis=0)`, modelled as `none`.  This is the
behaviour recorded in the notebook (`RuntimeWarning: Mean of empty
slice`), and it contradicts the claimed fatal precondition error. -/
theorem ensemble_models_empty_returns_undefined_mean (infer : InferFun)
    (cxr : String) (labels : List String) (tmpl : String × String)
    (cd sn : Option String) (fs : FS) :
    ensemble_models infer [] cxr labels tmpl cd sn fs = ⟨fs, [], [], none⟩ :=
  rfl

/-- C4: a single-checkpoint ensemble is the identity — whenever the run
over the one-element checkpoint list collects the single prediction
matrix `P` (whether freshly inferred or loaded from cache), the averaged
matrix `y_pred_avg` equals `P`. -/
theorem ensemble_single_checkpoint_identity (infer : InferFun)
    (cxr : String) (labels : List String) (tmpl : String × String)
    (cd sn : Option String) (fs : FS) (p : String) (P : Mat)
    (h : (ensemble_models infer [p] cxr labels tmpl cd sn fs).predictions
      = [P]) :
    (ensemble_models infer [p] cxr labels tmpl cd sn fs).y_pred_avg
      = some P := by
  have havg : (ensemble_models infer [p] cxr labels tmpl cd sn fs).y_pred_avg
      = npMean (ensemble_models infer [p] cxr labels tmpl cd sn fs).predictions :=
    rfl
  rw [havg, h, npMean_single]

/-- Witness for C4 at a concrete input: one checkpoint, no cache
directory, constant inference output. -/
theorem ensemble_single_checkpoint_identity_witness :
    (ensemble_models (fun _ _ _ _ => [[1, 2], [3, 4]]) ["m1.pt"] "f" ["A"]
      ("{}", "no {}") none none ⟨[], []⟩).y_pred_avg
      = some [[1, 2], [3, 4]] :=
  ensemble_single_checkpoint_identity (fun _ _ _ _ => [[1, 2], [3, 4]])
    "f" ["A"] ("{}", "no {}") none none ⟨[], []⟩ "m1.pt" [[1, 2], [3, 4]]
    (by rfl)

/-- C5: the averaged matrix (indeed the entire result: predictions, trace,
file-system state) is invariant under permuting the supplied checkpoint
list, because `ensemble_models` sorts the paths before processing. -/
theorem ensemble_models_perm_invariant (infer : InferFun)
    (l1 l2 : List String) (h : l1.Perm l2) (cxr : String)
    (labels : List String) (tmpl : String × String) (cd sn : Option String)
    (fs : FS) :
    ensemble_models infer l1 cxr labels tmpl cd sn fs =
      ensemble_models infer l2 cxr labels tmpl cd sn fs := by
  unfold ensemble_models
  rw [insertionSort_eq_of_perm l1 l2 h]

/-- Witness for C5 at a concrete input: two checkpoint lists that are
permutations of each other give identical results. -/
theorem ensemble_models_perm_invariant_witness :
    ensemble_models (fun p _ _ _ => [[(p.length : ℚ)]]) ["b.pt", "a.pt"]
      "f" ["A"] ("{}", "no {}") (some "cache") none ⟨[], []⟩ =
    ensemble_models (fun p _ _ _ => [[(p.length : ℚ)]]) ["a.pt", "b.pt"]
      "f" ["A"] ("{}", "no {}") (some "cache") none ⟨[], []⟩ :=
  ensemble_models_perm_invariant (fun p _ _ _ => [[(p.length : ℚ)]])
    ["b.pt", "a.pt"] ["a.pt", "b.pt"] (by decide) "f" ["A"] ("{}", "no {}")
    (some "cache") none ⟨[], []⟩

/-- The head of an event list is one of its members. -/
theorem mem_of_head?_eq (l : List Event) (x : Event)
    (h : l.head? = some x) : x ∈ l := by
  cases l with
  | nil => cases h
  | cons a t =>
    have ha : a = x := by simpa using h
    rw [ha] at *
    exact List.mem_cons_self x t

/-- Every path of the processed list gets a `make` call in the loop
trace. -/
theorem runPaths_make_mem (infer : InferFun) (cxr : String)
    (labels : List String) (tmpl : String × String) (cd : Option String)
    (sn : Option String) :
    ∀ (l : List String) (fs : FS) (p : String), p ∈ l →
      Event.makeCall p ∈
        (runPaths infer cxr labels tmpl cd sn fs l).2.1 := by
  intro l
  induction l with
  | nil => intro fs p hp; cases hp
  | cons a t ih =>
    intro fs p hp
    unfold runPaths
    dsimp only
    rcases List.mem_cons.mp hp with h | h
    · subst h
      exact List.mem_append_left _
        (mem_of_head?_eq _ _ (processPath_head infer cxr labels tmpl cd sn fs p))
    · exact List.mem_append_right _ (ih _ p h)

/-- C3: with a cache directory configured and the cache initially empty at
the derived key, a second run of `ensemble_models` with the same
checkpoint never calls the inference routine: it loads the cached matrix
verbatim (no shape validation exists anywhere in the function), and its
predictions and averaged matrix equal those of the first run. -/
theorem ensemble_models_cache_round_trip (infer : InferFun) (cxr : String)
    (labels : List String) (tmpl : String × String) (d : String)
    (sn : Option String) (fs : FS) (p : String)
    (hmiss : fs.files.lookup (cachePath d sn (stem p)) = none) :
    (∀ q : String, Event.inferCall q ∉
        (ensemble_models infer [p] cxr labels tmpl (some d) sn
          (ensemble_models infer [p] cxr labels tmpl (some d) sn fs).fsOut).trace)
    ∧ Event.loadCache (cachePath d sn (stem p)) ∈
        (ensemble_models infer [p] cxr labels tmpl (some d) sn
          (ensemble_models infer [p] cxr labels tmpl (some d) sn fs).fsOut).trace
    ∧ (ensemble_models infer [p] cxr labels tmpl (some d) sn
        (ensemble_models infer [p] cxr labels tmpl (some d) sn fs).fsOut).predictions
      = (ensemble_models infer [p] cxr labels tmpl (some d) sn fs).predictions
    ∧ (ensemble_models infer [p] cxr labels tmpl (some d) sn
        (ensemble_models infer [p] cxr labels tmpl (some d) sn fs).fsOut).y_pred_avg
      = (ensemble_models infer [p] cxr labels tmpl (some d) sn fs).y_pred_avg := by
  have h1 := ensemble_single_miss infer cxr labels tmpl d sn fs p hmiss
  have hhit : (ensemble_models infer [p] cxr labels tmpl (some d) sn
      fs).fsOut.files.lookup (cachePath d sn (stem p))
      = some (infer p cxr labels tmpl) := by
    rw [h1]
    simp [List.lookup]
  have h2 := ensemble_single_hit infer cxr labels tmpl d sn
    (ensemble_models infer [p] cxr labels tmpl (some d) sn fs).fsOut p
    (infer p cxr labels tmpl) hhit
  rw [h2, h1]
  refine ⟨fun q => ?_, ?_, rfl, rfl⟩ <;> simp

/-- Witness for C3 at a concrete input: run the ensembler twice on one
checkpoint starting from an empty file system. -/
theorem ensemble_models_cache_round_trip_witness :
    Event.loadCache (cachePath "cache" none (stem "m1.pt")) ∈
      (ensemble_models (fun _ _ _ _ => [[1, 2]]) ["m1.pt"] "f" ["A"]
        ("{}", "no {}") (some "cache") none
        (ensemble_models (fun _ _ _ _ => [[1, 2]]) ["m1.pt"] "f" ["A"]
          ("{}", "no {}") (some "cache") none ⟨[], []⟩).fsOut).trace :=
  (ensemble_models_cache_round_trip (fun _ _ _ _ => [[1, 2]]) "f" ["A"]
    ("{}", "no {}") "cache" none ⟨[], []⟩ "m1.pt" rfl).2.1

/-- C9: on a cache miss with a cache directory configured, the trace of
`ensemble_models` calls `mkdir` with `parents=True` on the cache
directory immediately before `np.save`, and afterwards the cache
directory and all its ancestors exist in the file system. -/
theorem ensemble_models_mkdir_before_save (infer : InferFun) (cxr : String)
    (labels : List String) (tmpl : String × String) (d : String)
    (sn : Option String) (fs : FS) (p : String)
    (hmiss : fs.files.lookup (cachePath d sn (stem p)) = none) :
    (ensemble_models infer [p] cxr labels tmpl (some d) sn fs).trace =
      [Event.makeCall p, Event.inferCall p, Event.mkdirCall d,
       Event.saveCall (cachePath d sn (stem p))]
    ∧ ∀ a ∈ parentChain d,
        a ∈ (ensemble_models infer [p] cxr labels tmpl (some d) sn fs).fsOut.dirs := by
  rw [ensemble_single_miss infer cxr labels tmpl d sn fs p hmiss]
  exact ⟨rfl, fun a ha => List.mem_append_left _ ha⟩

/-- Witness for C9 at a concrete input with a nested cache directory. -/
theorem ensemble_models_mkdir_before_save_witness :
    (ensemble_models (fun _ _ _ _ => [[1, 2]]) ["m1.pt"] "f" ["A"]
      ("{}", "no {}") (some "predictions/ensembled") none ⟨[], []⟩).trace =
      [Event.makeCall "m1.pt", Event.inferCall "m1.pt",
       Event.mkdirCall "predictions/ensembled",
       Event.saveCall (cachePath "predictions/ensembled" none (stem "m1.pt"))] :=
  (ensemble_models_mkdir_before_save (fun _ _ _ _ => [[1, 2]]) "f" ["A"]
    ("{}", "no {}") "predictions/ensembled" none ⟨[], []⟩ "m1.pt" rfl).1

/-- C10: `make` (model and loader construction) runs for every checkpoint
of the input list before the cache is consulted: a `make` call for each
supplied path appears in the trace, the loop body always begins with the
`make` call, and on a cache hit the body performs only the `make` call
and the cache load — the inference call alone is skipped. -/
theorem ensemble_models_make_every_path (infer : InferFun) (cxr : String)
    (labels : List String) (tmpl : String × String) (cd : Option String)
    (sn : Option String) (fs : FS) (paths : List String) (p : String)
    (hp : p ∈ paths) :
    Event.makeCall p ∈
      (ensemble_models infer paths cxr labels tmpl cd sn fs).trace
    ∧ (∀ fs2 : FS,
        (processPath infer cxr labels tmpl cd sn fs2 p).2.1.head? =
          some (Event.makeCall p))
    ∧ (∀ (fs2 : FS) (d : String) (y : Mat), cd = some d →
        fs2.files.lookup (cachePath d sn (stem p)) = some y →
        (processPath infer cxr labels tmpl cd sn fs2 p).2.1 =
          [Event.makeCall p, Event.loadCache (cachePath d sn (stem p))]) := by
  refine ⟨?_, fun fs2 => processPath_head infer cxr labels tmpl cd sn fs2 p,
    fun fs2 d y hcd hhit => ?_⟩
  · exact runPaths_make_mem infer cxr labels tmpl cd sn
      (paths.insertionSort (· ≤ ·)) fs p
      ((List.mem_insertionSort _).mpr hp)
  · subst hcd
    rw [processPath_hit infer cxr labels tmpl d sn fs2 p y hhit]

/-- Witness for C10 at a concrete input. -/
theorem ensemble_models_make_every_path_witness :
    Event.makeCall "m1.pt" ∈
      (ensemble_models (fun _ _ _ _ => [[1, 2]]) ["m1.pt", "m2.pt"] "f"
        ["A"] ("{}", "no {}") (some "cache") none ⟨[], []⟩).trace :=
  (ensemble_models_make_every_path (fun _ _ _ _ => [[1, 2]]) "f" ["A"]
    ("{}", "no {}") (some "cache") none ⟨[], []⟩ ["m1.pt", "m2.pt"] "m1.pt"
    (by decide)).1

/-- Column extraction succeeds on every matrix all of whose rows are long
enough. -/
theorem getCol_ok (m : Mat) (i : ℕ) (h : ∀ row ∈ m, i < row.length) :
    ∃ vs, getCol m i = Except.ok vs := by
  induction m with
  | nil => exact ⟨[], rfl⟩
  | cons row rest ih =>
    have h1 : i < row.length := h row (List.mem_cons_self row rest)
    obtain ⟨v, hv⟩ : ∃ v, row.get? i = some v :=
      ⟨row.get ⟨i, h1⟩, List.get?_eq_get h1⟩
    obtain ⟨vs, hvs⟩ := ih (fun r hr => h r (List.mem_cons_of_mem _ hr))
    exact ⟨v :: vs, by unfold getCol; rw [hv, hvs]⟩

/-- The per-label loop of `evaluate` succeeds and yields one column per
remaining label whenever every row is long enough for all remaining
column indices. -/
theorem evaluateAux_ok (pred truth : Mat) :
    ∀ (labels : List String) (i : ℕ),
      (∀ row ∈ pred, i + labels.length ≤ row.length) →
      (∀ row ∈ truth, i + labels.length ≤ row.length) →
      ∃ t, evaluateAux pred truth i labels = Except.ok t ∧
        t.length = labels.length := by
  intro labels
  induction labels with
  | nil => intro i _ _; exact ⟨[], rfl, rfl⟩
  | cons lab rest ih =>
    intro i hp ht
    have hp1 : ∀ row ∈ pred, i < row.length := by
      intro r hr
      have := hp r hr
      simp only [List.length_cons] at this
      omega
    have ht1 : ∀ row ∈ truth, i < row.length := by
      intro r hr
      have := ht r hr
      simp only [List.length_cons] at this
      omega
    obtain ⟨pc, hpc⟩ := getCol_ok pred i hp1
    obtain ⟨tc, htc⟩ := getCol_ok truth i ht1
    obtain ⟨t, hres, hlen⟩ := ih (i + 1)
      (by intro r hr; have := hp r hr; simp only [List.length_cons] at this; omega)
      (by intro r hr; have := ht r hr; simp only [List.length_cons] at this; omega)
    refine ⟨(lab ++ "_auc", auc pc tc) :: t, ?_, by simp [hlen]⟩
    unfold evaluateAux
    rw [hpc, htc, hres]

/-- C2: when the prediction matrix is too narrow for the label set (the
recorded notebook failure: a malformed, column-less prediction array
reaching `evaluate` with a 14-label set — shown here on its minimal
form, a zero-column row with one label), `evaluate` surfaces the generic
index error of numpy column access, not a dimension-mismatch message;
and for matrices whose rows are wide enough for every label, it returns
a table with exactly `len(labels)` columns. -/
theorem evaluate_index_error_and_column_count :
    evaluate [[]] [[1]] ["Atelectasis"] =
      Except.error "IndexError: index out of range"
    ∧ ∀ (pred truth : Mat) (labels : List String),
        (∀ row ∈ pred, labels.length ≤ row.length) →
        (∀ row ∈ truth, labels.length ≤ row.length) →
        ∃ t, evaluate pred truth labels = Except.ok t ∧
          t.length = labels.length := by
  refine ⟨rfl, fun pred truth labels hp ht => ?_⟩
  exact evaluateAux_ok pred truth labels 0 (by simpa using hp)
    (by simpa using ht)

/-- Witness for C2 at a concrete matching-shape input. -/
theorem evaluate_index_error_and_column_count_witness :
    ∃ t, evaluate [[1, 0], [0, 1]] [[1, 0], [0, 1]] ["A", "B"] =
      Except.ok t ∧ t.length = 2 :=
  evaluate_index_error_and_column_count.2 [[1, 0], [0, 1]] [[1, 0], [0, 1]]
    ["A", "B"] (by decide) (by decide)

/-- A truth column containing only the positive class has no negative
example, so the AUC is the sentinel `none` (NaN), never an exception. -/
theorem auc_all_pos_none (scores truth : List ℚ)
    (h : ∀ x ∈ truth, x = 1) : auc scores truth = none := by
  have hfil : (scores.zip truth).filter (fun x => !(x.2 == 1)) = [] := by
    rw [List.filter_eq_nil_iff]
    intro a ha
    have h2 := h a.2 (List.of_mem_zip ha).2
    simp [h2]
  simp [auc, hfil]

/-- Every pseudo-random index drawn for resampling is below the row
count when the row count is positive. -/
theorem drawIndices_succ (s rows k : ℕ) :
    drawIndices s rows (k + 1) =
      (lcgNext s % rows :: (drawIndices (lcgNext s) rows k).1,
       (drawIndices (lcgNext s) rows k).2) := rfl

theorem drawIndices_lt (bound : ℕ) (hb : 0 < bound) :
    ∀ (k s : ℕ), ∀ i ∈ (drawIndices s bound k).1, i < bound := by
  intro k
  induction k with
  | zero => intro s i hi; cases hi
  | succ k ih =>
    intro s i hi
    rw [drawIndices_succ] at hi
    rcases List.mem_cons.mp hi with h | h
    · exact h ▸ Nat.mod_lt _ hb
    · exact ih _ i h

/-- Rows of a bootstrap sample drawn with in-range indices are rows of
the original matrix. -/
theorem sampleRows_mem (m : Mat) (idxs : List ℕ)
    (h : ∀ i ∈ idxs, i < m.length) :
    ∀ row ∈ sampleRows m idxs, row ∈ m := by
  intro row hr
  obtain ⟨i, hi, hrow⟩ := List.mem_map.mp hr
  have hlt := h i hi
  rw [← hrow, List.getD_eq_getElem?_getD, List.getElem?_eq_getElem hlt]
  exact List.get_mem m i hlt

/-- If every row of a matrix carries a `1` in column `j`, any
successfully extracted column `j` consists of ones. -/
theorem getCol_all_ones (m : Mat) (j : ℕ)
    (h : ∀ row ∈ m, row.get? j = some 1) :
    ∀ vs, getCol m j = Except.ok vs → ∀ v ∈ vs, v = 1 := by
  induction m with
  | nil =>
    intro vs hvs v hv
    unfold getCol at hvs
    cases hvs
    cases hv
  | cons row rest ih =>
    intro vs hvs v hv
    unfold getCol at hvs
    rw [h row (List.mem_cons_self row rest)] at hvs
    cases hrest : getCol rest j with
    | error e => rw [hrest] at hvs; cases hvs
    | ok vs0 =>
      rw [hrest] at hvs
      cases hvs
      rcases List.mem_cons.mp hv with h1 | h1
      · exact h1
      · exact ih (fun r hr => h r (List.mem_cons_of_mem _ hr)) vs0 hrest v h1

/-- The `j`-th column of a successful `evaluate` result is named after
the `j`-th label and holds the AUC of the `j`-th prediction and truth
columns. -/
theorem evaluateAux_get (pred truth : Mat) :
    ∀ (labels : List String) (i : ℕ) (t : List (String × Option ℚ)),
      evaluateAux pred truth i labels = Except.ok t →
      ∀ (j : ℕ) (hj : j < labels.length),
        ∃ pc tc, getCol pred (i + j) = Except.ok pc ∧
          getCol truth (i + j) = Except.ok tc ∧
          t.get? j = some (labels.get ⟨j, hj⟩ ++ "_auc", auc pc tc) := by
  intro labels
  induction labels with
  | nil =>
    intro i t ht j hj
    exact absurd hj (by simp)
  | cons lab rest ih =>
    intro i t ht j hj
    unfold evaluateAux at ht
    cases hpc : getCol pred i with
    | error e => rw [hpc] at ht; cases ht
    | ok pc =>
      rw [hpc] at ht
      cases htc : getCol truth i with
      | error e => rw [htc] at ht; cases ht
      | ok tc =>
        rw [htc] at ht
        cases hrest : evaluateAux pred truth (i + 1) rest with
        | error e => rw [hrest] at ht; cases ht
        | ok t0 =>
          rw [hrest] at ht
          cases ht
          cases j with
          | zero => exact ⟨pc, tc, by simpa using hpc, by simpa using htc, rfl⟩
          | succ j =>
            have hj0 : j < rest.length := by
              simpa using Nat.lt_of_succ_lt_succ hj
            obtain ⟨pc0, tc0, h1, h2, h3⟩ := ih (i + 1) t0 hrest j hj0
            have harith : i + 1 + j = i + (j + 1) := by omega
            rw [harith] at h1 h2
            exact ⟨pc0, tc0, h1, h2, h3⟩
/-- One-step unfolding of the resampling loop. -/
theorem bootstrapIters_succ (pred truth : Mat) (labels : List String)
    (s n : ℕ) :
    bootstrapIters pred truth labels s (n + 1) =
      match evaluate
          (sampleRows pred (drawIndices s pred.length pred.length).1)
          (sampleRows truth (drawIndices s pred.length pred.length).1)
          labels with
      | Except.error e => Except.error e
      | Except.ok row =>
        match bootstrapIters pred truth labels
            (drawIndices s pred.length pred.length).2 n with
        | Except.error e => Except.error e
        | Except.ok rows => Except.ok (row :: rows) := rfl

/-- With equal positive row counts, rows wide enough for every label, and
an all-ones truth column `j`, every bootstrap iteration evaluates
successfully and reports the sentinel for label `j`. -/
theorem bootstrapIters_sentinel (pred truth : Mat) (labels : List String)
    (j : ℕ) (hj : j < labels.length) (hlen : truth.length = pred.length)
    (hpos : 0 < pred.length)
    (hp : ∀ row ∈ pred, labels.length ≤ row.length)
    (ht : ∀ row ∈ truth, labels.length ≤ row.length)
    (hones : ∀ row ∈ truth, row.get? j = some 1) :
    ∀ (n s : ℕ), ∃ rows,
      bootstrapIters pred truth labels s n = Except.ok rows ∧
      rows.length = n ∧
      ∀ r ∈ rows, r.get? j =
        some (labels.get ⟨j, hj⟩ ++ "_auc", none) := by
  intro n
  induction n with
  | zero =>
    intro s
    exact ⟨[], rfl, rfl, fun r hr => absurd hr (List.not_mem_nil r)⟩
  | succ n ih =>
    intro s
    have hidx : ∀ i ∈ (drawIndices s pred.length pred.length).1,
        i < pred.length := drawIndices_lt _ hpos _ s
    have hsp : ∀ row ∈
        sampleRows pred (drawIndices s pred.length pred.length).1,
        row ∈ pred := sampleRows_mem _ _ hidx
    have hst : ∀ row ∈
        sampleRows truth (drawIndices s pred.length pred.length).1,
        row ∈ truth :=
      sampleRows_mem _ _ (fun i hi => hlen ▸ hidx i hi)
    obtain ⟨t, hev, hlen_t⟩ := evaluateAux_ok
      (sampleRows pred (drawIndices s pred.length pred.length).1)
      (sampleRows truth (drawIndices s pred.length pred.length).1)
      labels 0
      (fun r hr => by simpa using hp r (hsp r hr))
      (fun r hr => by simpa using ht r (hst r hr))
    obtain ⟨pc, tc, hpc, htc, hget⟩ := evaluateAux_get
      (sampleRows pred (drawIndices s pred.length pred.length).1)
      (sampleRows truth (drawIndices s pred.length pred.length).1)
      labels 0 t hev j hj
    rw [Nat.zero_add] at hpc htc
    have htc1 : ∀ v ∈ tc, v = 1 :=
      getCol_all_ones _ j (fun row hr => hones row (hst row hr)) tc htc
    have hauc : auc pc tc = none := auc_all_pos_none pc tc htc1
    obtain ⟨rows, hrows, hlen_r, hall⟩ :=
      ih (drawIndices s pred.length pred.length).2
    have hev2 : evaluate
        (sampleRows pred (drawIndices s pred.length pred.length).1)
        (sampleRows truth (drawIndices s pred.length pred.length).1)
        labels = Except.ok t := hev
    refine ⟨t :: rows, ?_, by simp [hlen_r], ?_⟩
    · rw [bootstrapIters_succ, hev2, hrows]
    · intro r hr
      rcases List.mem_cons.mp hr with h | h
      · rw [hauc] at hget
        exact h ▸ hget
      · exact hall r h

/-- One-step unfolding of `bootstrap`. -/
theorem bootstrap_eq (seed : ℕ) (pred truth : Mat) (labels : List String)
    (n : ℕ) (conf : ℚ) :
    bootstrap seed pred truth labels n conf =
      match bootstrapIters pred truth labels (lcgNext seed) n with
      | Except.error e => Except.error e
      | Except.ok rows =>
        Except.ok (rows, bootstrapSummary labels rows conf) := rfl

/-- The mean of a list of sentinels is the sentinel. -/
theorem meanOpt_none (xs : List (Option ℚ)) (h : ∀ v ∈ xs, v = none) :
    meanOpt xs = none := by
  rcases xs with _ | ⟨v, vs⟩
  · simp [meanOpt]
  · have hv : v = none := h v (List.mem_cons_self v vs)
    simp [meanOpt, hv]

/-- A percentile over a list of sentinels is the sentinel. -/
theorem percentileOpt_none (q : ℚ) (xs : List (Option ℚ))
    (h : ∀ v ∈ xs, v = none) : percentileOpt q xs = none := by
  rcases xs with _ | ⟨v, vs⟩
  · simp [percentileOpt]
  · have hv : v = none := h v (List.mem_cons_self v vs)
    simp [percentileOpt, hv]
/-- C6: a ground-truth column containing only one class (all ones) makes
the AUC for that label the sentinel `none` (NaN) rather than an
exception; `evaluate` still succeeds on such input with one column per
label, reporting the sentinel exactly at the degenerate label; and
`bootstrap` returns normally, with the sentinel propagated through the
mean and both percentile computations of the summary for that label. -/
theorem auc_single_class_sentinel :
    (∀ (scores truth : List ℚ), (∀ x ∈ truth, x = 1) →
      auc scores truth = none)
    ∧ (∀ (pred truth : Mat) (labels : List String) (j : ℕ)
        (hj : j < labels.length),
        (∀ row ∈ pred, labels.length ≤ row.length) →
        (∀ row ∈ truth, labels.length ≤ row.length) →
        (∀ row ∈ truth, row.get? j = some 1) →
        ∃ t, evaluate pred truth labels = Except.ok t ∧
          t.length = labels.length ∧
          t.get? j = some (labels.get ⟨j, hj⟩ ++ "_auc", none))
    ∧ (∀ (seed n : ℕ) (conf : ℚ) (pred truth : Mat)
        (labels : List String) (j : ℕ) (hj : j < labels.length),
        truth.length = pred.length → 0 < pred.length →
        (∀ row ∈ pred, labels.length ≤ row.length) →
        (∀ row ∈ truth, labels.length ≤ row.length) →
        (∀ row ∈ truth, row.get? j = some 1) →
        ∃ rows, bootstrap seed pred truth labels n conf =
            Except.ok (rows, bootstrapSummary labels rows conf) ∧
          (bootstrapSummary labels rows conf).get? j =
            some (labels.get ⟨j, hj⟩ ++ "_auc", (none, none, none))) := by
  refine ⟨auc_all_pos_none, ?_, ?_⟩
  · intro pred truth labels j hj hp ht hones
    obtain ⟨t, hev, hlen_t⟩ := evaluateAux_ok pred truth labels 0
      (fun r hr => by simpa using hp r hr)
      (fun r hr => by simpa using ht r hr)
    obtain ⟨pc, tc, hpc, htc, hget⟩ :=
      evaluateAux_get pred truth labels 0 t hev j hj
    rw [Nat.zero_add] at hpc htc
    have htc1 : ∀ v ∈ tc, v = 1 := getCol_all_ones _ j hones tc htc
    rw [auc_all_pos_none pc tc htc1] at hget
    exact ⟨t, hev, hlen_t, hget⟩
  · intro seed n conf pred truth labels j hj hlen hpos hp ht hones
    obtain ⟨rows, hrows, hlen_r, hall⟩ := bootstrapIters_sentinel pred truth
      labels j hj hlen hpos hp ht hones n (lcgNext seed)
    have hcol : ∀ v ∈ colVals rows j, v = none := by
      intro v hv
      obtain ⟨r, hr, hveq⟩ := List.mem_map.mp hv
      have hrj := hall r hr
      rw [← hveq, List.getD_eq_getElem?_getD, ← List.get?_eq_getElem?, hrj]
      rfl
    refine ⟨rows, by rw [bootstrap_eq, hrows], ?_⟩
    have henum : labels.enum.get? j = some (j, labels.get ⟨j, hj⟩) := by
      rw [List.get?_enum, List.get?_eq_get hj]
      rfl
    simp only [bootstrapSummary, List.get?_map, henum, Option.map_some']
    rw [meanOpt_none _ hcol, percentileOpt_none _ _ hcol,
      percentileOpt_none _ _ hcol]

/-- Witness for C6 at a concrete degenerate (all-positive) truth
column. -/
theorem auc_single_class_sentinel_witness :
    auc [9 / 10, 2 / 10] [1, 1] = none :=
  auc_single_class_sentinel.1 [9 / 10, 2 / 10] [1, 1] (by simp)

/-- C7: `bootstrap` takes an explicit seed for its pseudo-random index
draws, and its output — the per-iteration AUC table and the
mean/lower/upper summary alike — is a function of the seed and the
inputs only: two runs on equal seeds and equal inputs produce identical
results. -/
theorem bootstrap_seed_deterministic (s1 s2 : ℕ) (p1 p2 t1 t2 : Mat)
    (l1 l2 : List String) (n1 n2 : ℕ) (c1 c2 : ℚ) (hs : s1 = s2)
    (hp : p1 = p2) (ht : t1 = t2) (hl : l1 = l2) (hn : n1 = n2)
    (hc : c1 = c2) :
    bootstrap s1 p1 t1 l1 n1 c1 = bootstrap s2 p2 t2 l2 n2 c2 := by
  subst hs hp ht hl hn hc
  rfl

/-- Witness for C7 at a concrete seed and input. -/
theorem bootstrap_seed_deterministic_witness :
    bootstrap 42 [[1, 0]] [[1, 0]] ["A"] 1 (95 / 100) =
      bootstrap 42 [[1, 0]] [[1, 0]] ["A"] 1 (95 / 100) :=
  bootstrap_seed_deterministic 42 42 [[1, 0]] [[1, 0]] [[1, 0]] [[1, 0]]
    ["A"] ["A"] 1 1 (95 / 100) (95 / 100) rfl rfl rfl rfl rfl rfl

/-- The base name of `dir/name.ext` is `name.ext` when neither `name` nor
`ext` contains a slash. -/
theorem basenameChars_append (d m : List Char) (hm : '/' ∉ m) :
    basenameChars (d ++ '/' :: m) = m := by
  unfold basenameChars
  have hrev : (d ++ '/' :: m).reverse = m.reverse ++ '/' :: d.reverse := by
    simp
  have htw := takeWhile_all_append (fun c => c ≠ '/') m.reverse '/'
    d.reverse
    (fun a ha => by
      have : a ≠ '/' := fun hEq => hm (hEq ▸ List.mem_reverse.mp ha)
      simp [this])
    (by simp)
  rw [hrev, htw, List.reverse_reverse]

/-- The stem of `name.ext` is `name` when `name` is nonempty and `ext`
is nonempty and contains no further dot (so the separating dot is
neither the leading nor the final character of the file name and the
pathlib guard admits it as a suffix dot). -/
theorem stemChars_append (n e : List Char) (hn : n ≠ []) (he : e ≠ [])
    (hde : '.' ∉ e) : stemChars (n ++ '.' :: e) = n := by
  unfold stemChars
  have hrev : (n ++ '.' :: e).reverse = e.reverse ++ '.' :: n.reverse := by
    simp
  have hdw := dropWhile_all_append (fun c => c ≠ '.') e.reverse '.'
    n.reverse
    (fun a ha => by
      have : a ≠ '.' := fun hEq => hde (hEq ▸ List.mem_reverse.mp ha)
      simp [this])
    (by simp)
  rw [hrev, hdw]
  rcases her : e.reverse with _ | ⟨c, t⟩
  · exact absurd (by simpa using congrArg List.reverse her) he
  · have hc : c ≠ '.' := by
      have hmem : c ∈ e.reverse := by
        rw [her]
        exact List.mem_cons_self c t
      exact fun hEq => hde (hEq ▸ List.mem_reverse.mp hmem)
    rw [if_neg (by simp [hc])]
    rcases hnr : n.reverse with _ | ⟨c2, t2⟩
    · exact absurd (by simpa using congrArg List.reverse hnr) hn
    · show (c2 :: t2).reverse = n
      rw [← hnr, List.reverse_reverse]

/-- C8: for every checkpoint path of the form `dir/name.ext` with a
nonempty, dot-free extension (so the separating dot passes the pathlib
suffix guard), the derived cache file path is a deterministic function
of the checkpoint base name `name` (the file name stripped of directory
and extension) and the optional run tag: `cache_dir/{name}.npy` without
a save name and `cache_dir/{save_name}_{name}.npy` with one.  In
particular two checkpoint paths with the same base name derive the same
cache path, whatever their directories or extensions. -/
theorem cache_path_deterministic_from_stem (d n e : List Char)
    (cd s : String) (hn : n ≠ []) (he : e ≠ []) (hne : '/' ∉ n)
    (hee : '/' ∉ e) (hde : '.' ∉ e) :
    stem (String.mk (d ++ '/' :: (n ++ '.' :: e))) = String.mk n
    ∧ cachePath cd none (stem (String.mk (d ++ '/' :: (n ++ '.' :: e)))) =
        cd ++ "/" ++ String.mk n ++ ".npy"
    ∧ cachePath cd (some s)
        (stem (String.mk (d ++ '/' :: (n ++ '.' :: e)))) =
        cd ++ "/" ++ s ++ "_" ++ String.mk n ++ ".npy" := by
  have hm : '/' ∉ n ++ '.' :: e := by
    intro hmem
    rcases List.mem_append.mp hmem with h | h
    · exact hne h
    · rcases List.mem_cons.mp h with h | h
      · cases h
      · exact hee h
  have hstem : stem (String.mk (d ++ '/' :: (n ++ '.' :: e))) =
      String.mk n := by
    unfold stem
    show String.mk
      (stemChars (basenameChars (d ++ '/' :: (n ++ '.' :: e)))) =
      String.mk n
    rw [basenameChars_append _ _ hm, stemChars_append n e hn he hde]
  exact ⟨hstem, by rw [hstem]; rfl, by rw [hstem]; rfl⟩

/-- Witness for C8 at a concrete checkpoint path. -/
theorem cache_path_deterministic_from_stem_witness :
    cachePath "predictions/ensembled" none
      (stem (String.mk ("../checkpoints".data ++ '/' ::
        ("checkpoint".data ++ '.' :: "pt".data)))) =
      "predictions/ensembled" ++ "/" ++ String.mk "checkpoint".data ++
        ".npy" :=
  (cache_path_deterministic_from_stem "../checkpoints".data
    "checkpoint".data "pt".data "predictions/ensembled" "run1"
    (by decide) (by decide) (by decide) (by decide) (by decide)).2.1
